import Mathlib

/-!
Verification of the bidoof value-transformation engine.

The embedding models JavaScript values as the inductive type `Value`, an
instruction as a record holding a `modifier` function that may throw (modelled
with `Except JsError`), programs and the execution engine from
`run-program.ts`, the parser from `program.ts`, the instruction library from
`instructions.ts`, and the primary entry point `makeBidoof` from `index.ts`.

External collaborator libraries (lodash merge/get/set, immer's `produce`, the
serializable-types shape matcher) are not part of the repository source; they
are modelled from the spec's interface-boundary description (spec section 6),
as noted on each such definition.

A second, heap-instrumented model (`Heap`, `HModifier`) gives object identity
a meaning so that the frame/aliasing properties about mutating versus
non-mutating instruction variants can be stated and proved.
-/

namespace Bidoof

/-- A JavaScript runtime error thrown by an instruction's modifier.
The only error the modelled instructions throw is the TypeError raised by
calling `push`/`unshift` on a non-array target (the spec's
`TypeMismatchError`). -/
inductive JsError where
  | typeMismatch

/-- A JavaScript value: numbers, strings, booleans, `null`, `undefined`,
arrays, and plain objects (ordered field lists, as JS objects preserve
insertion order). -/
inductive Value where
  | vnum (n : Int)
  | vstr (s : String)
  | vbool (b : Bool)
  | vnull
  | vundef
  | varr (elems : List Value)
  | vobj (fields : List (String × Value))

open Value

/-- Whether a value is an array (`Array.isArray`). -/
def Value.isArr : Value → Bool
  | varr _ => true
  | _ => false

/-- Property lookup in an object's field list; absent keys read as
`undefined`, as in JavaScript. -/
def getField : List (String × Value) → String → Value
  | [], _ => vundef
  | (k, v) :: rest, key => if k = key then v else getField rest key

/-- Property assignment in an object's field list: overwrite the existing
key in place, or append a new key at the end (JS insertion order). -/
def setField : List (String × Value) → String → Value → List (String × Value)
  | [], key, v => [(key, v)]
  | (k, w) :: rest, key, v =>
    if k = key then (k, v) :: rest else (k, w) :: setField rest key v

/-- Property deletion from an object's field list. -/
def removeField : List (String × Value) → String → List (String × Value)
  | [], _ => []
  | (k, v) :: rest, key =>
    if k = key then removeField rest key else (k, v) :: removeField rest key

/-- A path key interpreted as an array index when it is a decimal numeral. -/
def toIndex (s : String) : Option Nat := s.toNat?

/-- Array element assignment at an index, extending with `undefined` holes
when the index is past the end, as lodash does for arrays. -/
def setElem : List Value → Nat → Value → List Value
  | [], 0, nv => [nv]
  | [], n + 1, nv => vundef :: setElem [] n nv
  | _ :: rest, 0, nv => nv :: rest
  | e :: rest, n + 1, nv => e :: setElem rest n nv

/-- One step of property access: `v[key]`, with lodash's null-safe behavior
(anything without the key reads as `undefined`). -/
def childAt : Value → String → Value
  | vobj fields, k => getField fields k
  | varr elems, k =>
    match toIndex k with
    | some i => elems.getD i vundef
    | none => vundef
  | _, _ => vundef

/-- Modelled from the spec: the external path accessor utility's `get`
(spec section 6); walks the path one mapping key / array index at a time,
yielding `undefined` where the path cannot be traversed. Paths are taken in
already-split form (the key sequence of `"a.b"` is `["a", "b"]`). -/
def lodashGet : Value → List String → Value
  | v, [] => v
  | v, k :: rest => lodashGet (childAt v k) rest

/-- The intermediate container lodash's `set` creates (or keeps) while
walking a path: an existing container is kept; otherwise a fresh array is
created when the next key is an index, else a fresh object. -/
def childContainer (v : Value) (nextKey : String) : Value :=
  match v with
  | vobj f => vobj f
  | varr e => varr e
  | _ =>
    match toIndex nextKey with
    | some _ => varr []
    | none => vobj []

/-- Modelled from the spec: the external path accessor utility's `set`
(spec section 6); writes `nv` at the path, creating intermediate containers
as needed, and returns a non-object target unchanged as lodash does. -/
def lodashSet : Value → List String → Value → Value
  | v, [], _ => v
  | vobj fields, [k], nv => vobj (setField fields k nv)
  | vobj fields, k :: k2 :: rest, nv =>
    vobj (setField fields k
      (lodashSet (childContainer (getField fields k) k2) (k2 :: rest) nv))
  | varr elems, [k], nv =>
    (match toIndex k with
     | some i => varr (setElem elems i nv)
     | none => varr elems)
  | varr elems, k :: k2 :: rest, nv =>
    (match toIndex k with
     | some i =>
       varr (setElem elems i
         (lodashSet (childContainer (elems.getD i vundef) k2) (k2 :: rest) nv))
     | none => varr elems)
  | v, _ :: _, _ => v

mutual

/-- Modelled from the spec: the external deep-merge utility (spec sections 4.1
and 6). Objects merge recursively key-wise; arrays merge element-wise by
index (indices present in the source overwrite, indices absent are
preserved); an `undefined` source is skipped; any other source value
overwrites the target. -/
def lodashMerge : Value → Value → Value
  | target, vundef => target
  | vobj tf, vobj sf => vobj (mergeFields tf sf)
  | varr te, varr se => varr (mergeElems te se)
  | _, source => source

/-- Key-wise deep merge of a source field list into a target field list,
assigning each source key in order. -/
def mergeFields : List (String × Value) → List (String × Value) →
    List (String × Value)
  | tf, [] => tf
  | tf, (k, sv) :: rest =>
    mergeFields (setField tf k (lodashMerge (getField tf k) sv)) rest

/-- Index-wise deep merge of source elements into target elements. -/
def mergeElems : List Value → List Value → List Value
  | te, [] => te
  | [], sv :: rest => lodashMerge vundef sv :: mergeElems [] rest
  | tv :: te, sv :: rest => lodashMerge tv sv :: mergeElems te rest

end

/-- Property deletion (`delete input[name]`): removes an object key; on an
array, a valid in-range index becomes an `undefined` hole; a no-op
everywhere else. -/
def deleteProp : Value → String → Value
  | vobj fields, key => vobj (removeField fields key)
  | varr elems, key =>
    (match toIndex key with
     | some i => varr (if i < elems.length then setElem elems i vundef else elems)
     | none => varr elems)
  | v, _ => v

/-- The argument normalization of JavaScript `Array.prototype.concat`:
an array argument is spread into its elements, any other argument is kept
as a single element. Used by the non-mutating `prepend`
(`items.concat(input)` in `instructions.ts`). -/
def jsConcatArg : Value → List Value
  | varr es => es
  | v => [v]

/-- An instruction from `instruction.ts`: an identity-tagged wrapper around
one `modifier` function. In the embedding the tag is carried by the `Token`
sum type (the parser's only use of the tag), and a modifier that throws is
modelled with `Except`. -/
structure Instruction where
  modifier : Value → Except JsError Value

/-- The `makeInstruction` helper from `instruction.ts`. -/
def makeInstruction (modifier : Value → Except JsError Value) : Instruction :=
  ⟨modifier⟩

/-- A JavaScript callback passed to `modify` or `transform`, modelled by the
two things the core can observe about one call: `effect` is what the
callback's argument has become when the call returns (JS callbacks may edit
their argument in place; a callback such as `x => x + 1` cannot change its
numeric argument, so its effect is the identity), and `ret` is the
callback's return value. -/
structure JsCallback where
  effect : Value → Value
  ret : Value → Value

/-- Modelled from the spec: the external copy-on-write draft utility's
`produce` (spec section 6). The wrapper in `instructions.ts` passes a recipe
that runs an in-place instruction modifier against the draft and discards
its return value, finalizing the draft; every modifier the repository wraps
returns its edited input, so in this pure-value embedding the finalized
draft is exactly the recipe's result, and a throwing recipe propagates. -/
def immerProduce (input : Value) (recipe : Value → Except JsError Value) :
    Except JsError Value :=
  recipe input

/-- The `withoutMutating` combinator from `instructions.ts`: wrap an
instruction so that it edits a produced draft of the input instead of the
input itself. -/
def withoutMutating (instruction : Instruction) : Instruction :=
  makeInstruction (fun input => immerProduce input instruction.modifier)

/-- Mutating `merge` from `instructions.ts`: `lodashMerge(input, other);
return input`. -/
def mergeMutate (other : Value) : Instruction :=
  makeInstruction (fun input => Except.ok (lodashMerge input other))

/-- Non-mutating `merge` from `instructions.ts`. -/
def mergeNoMutate (other : Value) : Instruction :=
  withoutMutating (mergeMutate other)

/-- Mutating `set` from `instructions.ts`: `lodashSet(input, path, value);
return input`. -/
def setMutate (path : List String) (value : Value) : Instruction :=
  makeInstruction (fun input => Except.ok (lodashSet input path value))

/-- Non-mutating `set` from `instructions.ts`. -/
def setNoMutate (path : List String) (value : Value) : Instruction :=
  withoutMutating (setMutate path value)

/-- The `transform` instruction from `instructions.ts`: the callback itself
is the modifier, so its return value replaces the target. -/
def transform (callback : JsCallback) : Instruction :=
  makeInstruction (fun input => Except.ok (callback.ret input))

/-- Mutating `modify` from `instructions.ts`: `callback(input); return
input` — the callback's return value is discarded and only its in-place
effect on the input is kept. -/
def modifyMutate (callback : JsCallback) : Instruction :=
  makeInstruction (fun input => Except.ok (callback.effect input))

/-- Non-mutating `modify` from `instructions.ts`. -/
def modifyNoMutate (callback : JsCallback) : Instruction :=
  withoutMutating (modifyMutate callback)

/-- The `replace` instruction from `instructions.ts`: ignore the input and
return the replacement value. -/
def replace (newValue : Value) : Instruction :=
  makeInstruction (fun _ => Except.ok newValue)

/-- Mutating `append` from `instructions.ts`: `input.push(...items); return
input`; calling `push` on a non-array throws a TypeError. -/
def appendMutate (items : List Value) : Instruction :=
  makeInstruction (fun input =>
    match input with
    | varr es => Except.ok (varr (es ++ items))
    | _ => Except.error JsError.typeMismatch)

/-- Non-mutating `append` from `instructions.ts`. -/
def appendNoMutate (items : List Value) : Instruction :=
  withoutMutating (appendMutate items)

/-- Mutating `prepend` from `instructions.ts`: `input.unshift(...items);
return input`; calling `unshift` on a non-array throws a TypeError. -/
def prependMutate (items : List Value) : Instruction :=
  makeInstruction (fun input =>
    match input with
    | varr es => Except.ok (varr (items ++ es))
    | _ => Except.error JsError.typeMismatch)

/-- Non-mutating `prepend` from `instructions.ts`: unlike every other
non-mutating variant it is written directly as
`makeInstruction(input => items.concat(input))`, not via `withoutMutating`,
and `concat` never throws. -/
def prependNoMutate (items : List Value) : Instruction :=
  makeInstruction (fun input => Except.ok (varr (items ++ jsConcatArg input)))

/-- Mutating `deleteProperty` from `instructions.ts`:
`delete input[propertyName]; return input`. -/
def deletePropertyMutate (propertyName : String) : Instruction :=
  makeInstruction (fun input => Except.ok (deleteProp input propertyName))

/-- Non-mutating `deleteProperty` from `instructions.ts`. -/
def deletePropertyNoMutate (propertyName : String) : Instruction :=
  withoutMutating (deletePropertyMutate propertyName)

/-- Mutating `at` from `instructions.ts`: read the child at `path`, apply
the inner instruction's modifier to it, write the result back at `path`,
and return the input. -/
def atMutate (path : List String) (instruction : Instruction) : Instruction :=
  makeInstruction (fun input =>
    match instruction.modifier (lodashGet input path) with
    | Except.ok newChild => Except.ok (lodashSet input path newChild)
    | Except.error e => Except.error e)

/-- Non-mutating `at` from `instructions.ts`. -/
def atNoMutate (path : List String) (instruction : Instruction) : Instruction :=
  withoutMutating (atMutate path instruction)

/-- A `Program` from `program.ts`: one shape matcher plus an ordered
instruction list. The external serializable-types matcher is modelled from
the spec (section 6) as the predicate it denotes, with `coerceToType` the
identity on that predicate. -/
structure Program where
  matcher : Value → Bool
  instructions : List Instruction

/-- The `Program.matches` method from `program.ts`
(`t.isOfType(input, this.matcher)`). -/
def Program.matches (p : Program) (input : Value) : Bool :=
  p.matcher input

/-- The record returned by `runProgram` in `run-program.ts`. -/
structure RunResult where
  matched : Bool
  output : Value

/-- The instruction loop of `runProgram` in `run-program.ts`, carrying the
`matched` flag and the current target: before every instruction the
program's matcher is re-evaluated against the current target; on a match
the instruction's modifier is applied (a thrown error propagates),
otherwise the instruction is skipped. -/
def runProgramGo (p : Program) :
    List Instruction → Bool → Value → Except JsError (Bool × Value)
  | [], m, v => Except.ok (m, v)
  | i :: rest, m, v =>
    if p.matches v then
      match i.modifier v with
      | Except.ok v2 => runProgramGo p rest true v2
      | Except.error e => Except.error e
    else
      runProgramGo p rest m v

/-- `runProgram` from `run-program.ts`. -/
def runProgram (p : Program) (input : Value) : Except JsError RunResult :=
  match runProgramGo p p.instructions false input with
  | Except.ok (m, v) => Except.ok ⟨m, v⟩
  | Except.error e => Except.error e

/-- The `Options` type from `run-program.ts`. -/
structure Options where
  stopAfterFirstMatch : Bool

/-- The program loop of `runPrograms` in `run-program.ts`: run each program
against the current target, always adopt its output, and break when a
program matched and `stopAfterFirstMatch` is set. -/
def runProgramsGo : List Program → Options → Value → Except JsError Value
  | [], _, v => Except.ok v
  | p :: rest, opts, v =>
    match runProgram p v with
    | Except.error e => Except.error e
    | Except.ok r =>
      if r.matched && opts.stopAfterFirstMatch then Except.ok r.output
      else runProgramsGo rest opts r.output

/-- `runPrograms` from `run-program.ts`. -/
def runPrograms (programs : List Program) (opts : Options) (input : Value) :
    Except JsError Value :=
  runProgramsGo programs opts input

/-- One element of the flat token list handed to the parser: either a
matcher description (anything that is not instruction-tagged, identified
with the predicate its coercion denotes) or an instruction. -/
inductive Token where
  | desc (matcher : Value → Bool)
  | ins (i : Instruction)

/-- The error message thrown by `parseIntoPrograms` in `program.ts` when an
instruction precedes any matcher. -/
def parserErrorMessage : String :=
  "Bidoof received an instruction before receiving a matcher (a description of the object(s) to apply the instruction(s) to). Instructions should always come after matchers."

/-- The scan loop of `parseIntoPrograms` in `program.ts`, carrying the
sealed programs and the open current program. -/
def parseGo : List Token → List Program → Option Program →
    Except String (List Program)
  | [], programs, none => Except.ok programs
  | [], programs, some cur => Except.ok (programs ++ [cur])
  | Token.ins i :: rest, programs, cur =>
    (match cur with
     | none => Except.error parserErrorMessage
     | some p => parseGo rest programs (some ⟨p.matcher, p.instructions ++ [i]⟩))
  | Token.desc m :: rest, programs, cur =>
    (match cur with
     | none => parseGo rest programs (some ⟨m, []⟩)
     | some p => parseGo rest (programs ++ [p]) (some ⟨m, []⟩))

/-- `parseIntoPrograms` from `program.ts`. -/
def parseIntoPrograms (matchersAndInstructions : List Token) :
    Except String (List Program) :=
  parseGo matchersAndInstructions [] none

/-- The `defaultOptions` value from `index.ts`. -/
def defaultOptions : Options :=
  ⟨false⟩

/-- `makeBidoof` from `index.ts`: parse the program description once, at
construction time (a parse failure is reported here, before any input
exists), and return the reusable run function. -/
def makeBidoof (programDescription : List Token) (opts : Options) :
    Except String (Value → Except JsError Value) :=
  match parseIntoPrograms programDescription with
  | Except.ok programs => Except.ok (fun input => runPrograms programs opts input)
  | Except.error e => Except.error e

/-- The token list a single parsed program stands for: its matcher
description followed by its instructions in order. -/
def flattenProgram (p : Program) : List Token :=
  Token.desc p.matcher :: p.instructions.map Token.ins

/-- The token list a parsed program list stands for, in source order. -/
def flattenPrograms : List Program → List Token
  | [] => []
  | p :: rest => flattenProgram p ++ flattenPrograms rest

/-! ## Heap-instrumented model

To state the frame and reference-identity properties of the mutating versus
non-mutating instruction variants, object identity needs a meaning. This
second model gives targets an address in a store: a cell holds the (deep)
value of one target object, an in-place modifier rewrites the cell of its
argument address and returns that same address (the source's
`...; return input`), and the produce-based wrapper runs the modifier on a
freshly allocated draft copy instead (spec section 6: `produce` leaves the
original value untouched and returns a new value). -/

/-- A heap address identifying one target object. -/
abbrev Addr := Nat

/-- The store: allocated cells, each holding the complete value of one
target, plus the next fresh address. -/
structure Heap where
  cells : List (Addr × Value)
  next : Addr

/-- Cell lookup by address. -/
def readCells : List (Addr × Value) → Addr → Option Value
  | [], _ => none
  | (b, v) :: rest, a => if b = a then some v else readCells rest a

/-- In-place overwrite of the cell at an address. -/
def writeCells : List (Addr × Value) → Addr → Value → List (Addr × Value)
  | [], _, _ => []
  | (b, w) :: rest, a, v =>
    if b = a then (b, v) :: writeCells rest a v else (b, w) :: writeCells rest a v

/-- Read the value stored at an address. -/
def Heap.read (h : Heap) (a : Addr) : Option Value :=
  readCells h.cells a

/-- Overwrite the value stored at an address, in place. -/
def Heap.write (h : Heap) (a : Addr) (v : Value) : Heap :=
  ⟨writeCells h.cells a v, h.next⟩

/-- Allocate a fresh cell holding a value and return its address. -/
def Heap.alloc (h : Heap) (v : Value) : Addr × Heap :=
  (h.next, ⟨h.cells ++ [(h.next, v)], h.next + 1⟩)

/-- The allocated addresses of a heap. -/
def Heap.addrs (h : Heap) : List Addr :=
  h.cells.map Prod.fst

/-- A well-formed heap allocates only addresses below `next`, so `next` is
genuinely fresh. -/
def Heap.WF (h : Heap) : Prop :=
  ∀ a ∈ h.addrs, a < h.next

/-- A modifier in the heap model: it receives the address of its target and
may rewrite the store, returning the address of its result. -/
abbrev HModifier := Addr → Heap → Except JsError (Addr × Heap)

/-- The shape shared by every mutating instruction variant in
`instructions.ts`: edit the target object in place (possibly throwing) and
return the input itself. -/
def inPlaceH (f : Value → Except JsError Value) : HModifier := fun a h =>
  match f ((h.read a).getD vundef) with
  | Except.ok v2 => Except.ok (a, h.write a v2)
  | Except.error e => Except.error e

/-- The `withoutMutating` combinator in the heap model: produce a draft of
the input (a freshly allocated copy, per the spec's section 6 contract for
`produce`), run the wrapped modifier against the draft, and finalize the
draft as the result. -/
def withoutMutatingH (m : HModifier) : HModifier := fun a h =>
  m (h.alloc ((h.read a).getD vundef)).1 (h.alloc ((h.read a).getD vundef)).2

/-- Mutating `merge` in the heap model. -/
def mergeMutateH (other : Value) : HModifier :=
  inPlaceH (fun v => Except.ok (lodashMerge v other))

/-- Non-mutating `merge` in the heap model. -/
def mergeNoMutateH (other : Value) : HModifier :=
  withoutMutatingH (mergeMutateH other)

/-- Mutating `set` in the heap model. -/
def setMutateH (path : List String) (value : Value) : HModifier :=
  inPlaceH (fun v => Except.ok (lodashSet v path value))

/-- Non-mutating `set` in the heap model. -/
def setNoMutateH (path : List String) (value : Value) : HModifier :=
  withoutMutatingH (setMutateH path value)

/-- Mutating `modify` in the heap model. -/
def modifyMutateH (callback : JsCallback) : HModifier :=
  inPlaceH (fun v => Except.ok (callback.effect v))

/-- Non-mutating `modify` in the heap model. -/
def modifyNoMutateH (callback : JsCallback) : HModifier :=
  withoutMutatingH (modifyMutateH callback)

/-- Mutating `append` in the heap model. -/
def appendMutateH (items : List Value) : HModifier :=
  inPlaceH (fun v =>
    match v with
    | varr es => Except.ok (varr (es ++ items))
    | _ => Except.error JsError.typeMismatch)

/-- Non-mutating `append` in the heap model. -/
def appendNoMutateH (items : List Value) : HModifier :=
  withoutMutatingH (appendMutateH items)

/-- Mutating `deleteProperty` in the heap model. -/
def deletePropertyMutateH (propertyName : String) : HModifier :=
  inPlaceH (fun v => Except.ok (deleteProp v propertyName))

/-- Non-mutating `deleteProperty` in the heap model. -/
def deletePropertyNoMutateH (propertyName : String) : HModifier :=
  withoutMutatingH (deletePropertyMutateH propertyName)

/-! ## Concrete example values used to witness the theorems -/

/-- The matcher of the spec's re-check scenario: matches positive numbers. -/
def isPositiveNumber : Value → Bool
  | vnum n => decide (0 < n)
  | _ => false

/-- A matcher accepting any number (the README's `Number` description). -/
def isNumberValue : Value → Bool
  | vnum _ => true
  | _ => false

/-- A matcher accepting any string. -/
def isStringValue : Value → Bool
  | vstr _ => true
  | _ => false

/-- The JS callback `x => x - 10`: it cannot mutate its numeric argument
(effect is the identity) and returns the argument minus ten. -/
def subTenC : JsCallback :=
  ⟨fun v => v, fun v =>
    match v with
    | vnum n => vnum (n - 10)
    | w => w⟩

/-- The JS callback `x => x + 1`: it cannot mutate its numeric argument
(effect is the identity) and returns the argument plus one. -/
def addOneC : JsCallback :=
  ⟨fun v => v, fun v =>
    match v with
    | vnum n => vnum (n + 1)
    | w => w⟩

/-- The spec's re-check scenario program: matcher `x > 0`, instructions
subtracting ten and then adding one. -/
def pRecheck : Program :=
  ⟨isPositiveNumber, [transform subTenC, transform addOneC]⟩

/-- A one-cell heap holding the object `{k: 1}` at address 0. -/
def h0Ex : Heap :=
  ⟨[(0, vobj [("k", vnum 1)])], 1⟩

/-- The heap `h0Ex` after the non-mutating `set("k", 2)` ran on address 0:
the original cell is untouched and the edited copy lives in a fresh cell. -/
def h2Ex : Heap :=
  ⟨[(0, vobj [("k", vnum 1)]), (1, vobj [("k", vnum 2)])], 2⟩

/-- The heap `h0Ex` after the mutating `set("k", 2)` ran on address 0: the
original cell itself was rewritten. -/
def h3Ex : Heap :=
  ⟨[(0, vobj [("k", vnum 2)])], 1⟩

/-! ## Engine lemmas -/

/-- When the matcher rejects the current target, the rest of the
instruction loop is a no-op: every remaining instruction is skipped and the
matched flag and target are returned as they are. -/
theorem runProgramGo_skip (p : Program) (l : List Instruction) (m : Bool)
    (v : Value) (h : p.matches v = false) :
    runProgramGo p l m v = Except.ok (m, v) := by
  induction l with
  | nil => rfl
  | cons i rest ih => simp [runProgramGo, h, ih]

/-- The matched flag is monotone: once set it stays set for the rest of the
instruction loop. -/
theorem runProgramGo_true_fst (p : Program) :
    ∀ (l : List Instruction) (v : Value) (mv : Bool × Value),
      runProgramGo p l true v = Except.ok mv → mv.1 = true := by
  intro l
  induction l with
  | nil =>
    intro v mv h
    simp only [runProgramGo] at h
    cases h
    rfl
  | cons i rest ih =>
    intro v mv h
    rw [runProgramGo] at h
    split at h
    · split at h
      · exact ih _ _ h
      · cases h
    · exact ih _ _ h

/-- If the whole instruction loop ends with the matched flag still `false`,
no instruction ever ran and the target is returned unchanged. -/
theorem runProgramGo_false_output (p : Program) :
    ∀ (l : List Instruction) (v : Value) (mv : Bool × Value),
      runProgramGo p l false v = Except.ok mv → mv.1 = false → mv.2 = v := by
  intro l
  induction l with
  | nil =>
    intro v mv h _
    simp only [runProgramGo] at h
    cases h
    rfl
  | cons i rest ih =>
    intro v mv h hm
    rw [runProgramGo] at h
    split at h
    · split at h
      · rw [runProgramGo_true_fst p rest _ mv h] at hm
        cases hm
      · cases h
    · exact ih _ _ h hm

/-- A program whose matcher rejects the input reports no match and passes
the input through unchanged. -/
theorem runProgram_of_matches_false (p : Program) (v : Value)
    (h : p.matches v = false) :
    runProgram p v = Except.ok ⟨false, v⟩ := by
  simp [runProgram, runProgramGo_skip p p.instructions false v h]

/-- A run that reports no match returns its input unchanged. -/
theorem runProgram_false_output (p : Program) (v : Value) (r : RunResult)
    (h : runProgram p v = Except.ok r) (hm : r.matched = false) :
    r.output = v := by
  unfold runProgram at h
  cases e : runProgramGo p p.instructions false v with
  | ok mv =>
    obtain ⟨m1, v1⟩ := mv
    rw [e] at h
    cases h
    exact runProgramGo_false_output p p.instructions v (m1, v1) e hm
  | error err =>
    rw [e] at h
    cases h

/-! ## Claim theorems -/

/-- C1: single-program execution re-evaluates the program's matcher against
the current value of `currentTarget` before every instruction, in order: on a
match, `matched` is set and the target is replaced by the instruction's
modifier output; otherwise the instruction is skipped and the target is left
unchanged (second conjunct, for any flag). Consequently, once an instruction
transforms the value so that it no longer satisfies the matcher, every
subsequent instruction of the program is skipped while the result still
records `matched = true` (third conjunct, the mid-run state with the flag
already set). -/
theorem c1_recheck_before_every_instruction :
    (∀ (p : Program) (i : Instruction) (rest : List Instruction) (m : Bool)
        (v : Value),
      runProgramGo p (i :: rest) m v =
        if p.matches v then
          match i.modifier v with
          | Except.ok v2 => runProgramGo p rest true v2
          | Except.error e => Except.error e
        else runProgramGo p rest m v)
  ∧ (∀ (p : Program) (l : List Instruction) (m : Bool) (v : Value),
      p.matches v = false → runProgramGo p l m v = Except.ok (m, v))
  ∧ (∀ (p : Program) (rest : List Instruction) (v2 : Value),
      p.matches v2 = false →
      runProgramGo p rest true v2 = Except.ok (true, v2)) := by
  refine ⟨fun p i rest m v => rfl, fun p l m v h => runProgramGo_skip p l m v h,
    fun p rest v2 h => runProgramGo_skip p rest true v2 h⟩

/-- C1 witness: the spec's re-check scenario. On input `5` the first
instruction makes the value `-5`, the matcher `x > 0` now rejects it, the
remaining instruction is skipped, and the program still reports
`matched = true` with output `-5`. -/
theorem c1_witness :
    pRecheck.matches (vnum (-5)) = false
  ∧ runProgramGo pRecheck [transform addOneC] true (vnum (-5))
      = Except.ok (true, vnum (-5))
  ∧ runProgram pRecheck (vnum 5) = Except.ok ⟨true, vnum (-5)⟩ :=
  ⟨rfl,
   c1_recheck_before_every_instruction.2.2 pRecheck [transform addOneC]
     (vnum (-5)) rfl,
   rfl⟩

/-- C2: multi-program execution processes programs in order, always adopting
each program's output as the new target (first conjunct, the loop step); when
a program reports a match and `stopAfterFirstMatch` is set, iteration stops
immediately with the current value and no later program runs (second
conjunct, whose right-hand side does not mention the remaining programs); and
a non-matching program is a no-op pass-through, its adopted output being the
unchanged input (third conjunct). -/
theorem c2_programs_in_order_stop_after_first_match :
    (∀ (p : Program) (rest : List Program) (opts : Options) (v : Value)
        (r : RunResult),
      runProgram p v = Except.ok r →
        runProgramsGo (p :: rest) opts v =
          if r.matched && opts.stopAfterFirstMatch then Except.ok r.output
          else runProgramsGo rest opts r.output)
  ∧ (∀ (p : Program) (rest : List Program) (opts : Options) (v : Value)
        (r : RunResult),
      runProgram p v = Except.ok r → r.matched = true →
      opts.stopAfterFirstMatch = true →
        runProgramsGo (p :: rest) opts v = Except.ok r.output)
  ∧ (∀ (p : Program) (v : Value) (r : RunResult),
      runProgram p v = Except.ok r → r.matched = false → r.output = v) := by
  refine ⟨?_, ?_, ?_⟩
  · intro p rest opts v r h
    simp [runProgramsGo, h]
  · intro p rest opts v r h hm hs
    simp [runProgramsGo, h, hm, hs]
  · intro p v r h hm
    exact runProgram_false_output p v r h hm

/-- C2 witness: with `stopAfterFirstMatch = true` and two programs that both
match the number `0`, only the first program's `replace(7)` runs; its output
is returned and the second program's `replace(9)` never executes. -/
theorem c2_witness :
    runProgram ⟨isNumberValue, [replace (vnum 7)]⟩ (vnum 0)
      = Except.ok ⟨true, vnum 7⟩
  ∧ runProgramsGo
      [⟨isNumberValue, [replace (vnum 7)]⟩, ⟨isNumberValue, [replace (vnum 9)]⟩]
      ⟨true⟩ (vnum 0) = Except.ok (vnum 7) :=
  ⟨rfl,
   c2_programs_in_order_stop_after_first_match.2.1
     ⟨isNumberValue, [replace (vnum 7)]⟩
     [⟨isNumberValue, [replace (vnum 9)]⟩] ⟨true⟩ (vnum 0)
     ⟨true, vnum 7⟩ rfl rfl rfl⟩

/-- C8: identity pass-through — an input that satisfies no matcher of any
program in the list is returned unchanged by the compiled program list. -/
theorem c8_identity_pass_through :
    ∀ (programs : List Program) (opts : Options) (v : Value),
      (∀ p ∈ programs, p.matches v = false) →
      runPrograms programs opts v = Except.ok v := by
  intro programs opts v
  unfold runPrograms
  induction programs with
  | nil => intro _; rfl
  | cons p rest ih =>
    intro h
    have hp : p.matches v = false := h p (List.mem_cons_self p rest)
    rw [runProgramsGo, runProgram_of_matches_false p v hp]
    simpa using ih (fun q hq => h q (List.mem_cons_of_mem p hq))

/-- C8 witness: a program list whose single matcher accepts only strings
passes the number `3` through unchanged. -/
theorem c8_witness :
    runPrograms [⟨isStringValue, [replace (vnum 1)]⟩] ⟨false⟩ (vnum 3)
      = Except.ok (vnum 3) :=
  c8_identity_pass_through [⟨isStringValue, [replace (vnum 1)]⟩] ⟨false⟩
    (vnum 3)
    (by
      intro p hp
      rw [List.mem_singleton] at hp
      subst hp
      rfl)

/-- C10: a program with an empty instruction list reports `matched = false`
and returns the input itself, even when its matcher matches (the matcher is
universally quantified, so in particular matching ones are covered); hence in
`runPrograms` such a program never triggers the `stopAfterFirstMatch`
short-circuit — the loop continues with the remaining programs for every
option value. -/
theorem c10_empty_program_never_matches :
    ∀ (m : Value → Bool) (v : Value) (opts : Options) (rest : List Program),
      runProgram ⟨m, []⟩ v = Except.ok ⟨false, v⟩
    ∧ runProgramsGo (⟨m, []⟩ :: rest) opts v = runProgramsGo rest opts v := by
  intro m v opts rest
  exact ⟨rfl, rfl⟩

/-- Flattening a parsed program list distributes over appending. -/
theorem flattenPrograms_append (xs ys : List Program) :
    flattenPrograms (xs ++ ys) = flattenPrograms xs ++ flattenPrograms ys := by
  induction xs with
  | nil => rfl
  | cons p rest ih => simp [flattenPrograms, ih]

/-- Once a current program is open, the parser scan always succeeds. -/
theorem parseGo_ok_of_open :
    ∀ (ts : List Token) (programs : List Program) (cur : Program),
      ∃ ps, parseGo ts programs (some cur) = Except.ok ps := by
  intro ts
  induction ts with
  | nil => intro programs cur; exact ⟨programs ++ [cur], rfl⟩
  | cons t rest ih =>
    intro programs cur
    cases t with
    | ins i => exact ih programs ⟨cur.matcher, cur.instructions ++ [i]⟩
    | desc m => exact ih (programs ++ [cur]) ⟨m, []⟩

/-- The parser scan loses nothing and reorders nothing: a successful parse
flattens back to the already-sealed programs, then the open program, then
the remaining tokens. -/
theorem parseGo_flatten :
    ∀ (ts : List Token) (programs : List Program) (cur : Option Program)
      (ps : List Program),
      parseGo ts programs cur = Except.ok ps →
      flattenPrograms ps = flattenPrograms programs ++
        (match cur with
         | none => []
         | some p => flattenProgram p) ++ ts := by
  intro ts
  induction ts with
  | nil =>
    intro programs cur ps h
    cases cur with
    | none =>
      simp only [parseGo] at h
      cases h
      simp
    | some p =>
      simp only [parseGo] at h
      cases h
      simp [flattenPrograms_append, flattenPrograms]
  | cons t rest ih =>
    intro programs cur ps h
    cases t with
    | ins i =>
      cases cur with
      | none =>
        simp only [parseGo] at h
        exact (Except.noConfusion h)
      | some p =>
        have h2 := ih programs (some ⟨p.matcher, p.instructions ++ [i]⟩) ps h
        simp only [h2, flattenProgram, List.map_append]
        simp
    | desc m =>
      cases cur with
      | none =>
        have h2 := ih programs (some ⟨m, []⟩) ps h
        simp only [h2, flattenProgram]
        simp
      | some p =>
        have h2 := ih (programs ++ [p]) (some ⟨m, []⟩) ps h
        simp only [h2, flattenProgram, flattenPrograms_append]
        simp [flattenPrograms, flattenProgram]

/-- C3: a token list whose first element is an instruction fails with the
malformed-program error, and it fails at construction time — `makeBidoof`
itself returns the error, before any input could be supplied to a run
function (first conjunct). A token list beginning with a matcher description
always parses successfully, and the parsed programs flatten back to exactly
the source token list, so the programs come in source order, each holding
its matcher and its following instructions in order (second conjunct). -/
theorem c3_instruction_before_matcher_is_construction_error :
    (∀ (i : Instruction) (rest : List Token) (opts : Options),
        parseIntoPrograms (Token.ins i :: rest) = Except.error parserErrorMessage
      ∧ makeBidoof (Token.ins i :: rest) opts = Except.error parserErrorMessage)
  ∧ (∀ (m : Value → Bool) (rest : List Token),
      ∃ ps, parseIntoPrograms (Token.desc m :: rest) = Except.ok ps
        ∧ flattenPrograms ps = Token.desc m :: rest) := by
  constructor
  · intro i rest opts
    exact ⟨rfl, rfl⟩
  · intro m rest
    obtain ⟨ps, hps⟩ := parseGo_ok_of_open rest [] ⟨m, []⟩
    refine ⟨ps, hps, ?_⟩
    have h2 := parseGo_flatten rest [] (some ⟨m, []⟩) ps hps
    simpa [flattenPrograms, flattenProgram] using h2

/-- C9: replacing twice is replacing once — whenever `v` and `x` both
satisfy the matcher, running the compiled token list
`[M, replace x, M, replace x]` on `v` gives the same result as running
`[M, replace x]`, and that result is `x` (with the default options, as in
the spec's `run(programs)(v)` notation). -/
theorem c9_replace_idempotent :
    ∀ (M : Value → Bool) (x v : Value), M v = true → M x = true →
      (makeBidoof
        [Token.desc M, Token.ins (replace x), Token.desc M,
         Token.ins (replace x)] defaultOptions).map (fun g => g v)
        = (makeBidoof [Token.desc M, Token.ins (replace x)]
            defaultOptions).map (fun f => f v)
    ∧ (∃ f, makeBidoof [Token.desc M, Token.ins (replace x)] defaultOptions
          = Except.ok f ∧ f v = Except.ok x) := by
  intro M x v hv hx
  constructor
  · simp [makeBidoof, parseIntoPrograms, parseGo, Except.map, runPrograms,
      runProgramsGo, runProgram, runProgramGo, Program.matches, replace,
      makeInstruction, defaultOptions, hv, hx]
  · refine ⟨_, rfl, ?_⟩
    simp [runPrograms, runProgramsGo, runProgram, runProgramGo,
      Program.matches, replace, makeInstruction, defaultOptions, hv]

/-- C9 witness: with the matcher accepting any number, `x = 1` and `v = 0`,
the two-copy program and the one-copy program produce the same output. -/
theorem c9_witness :
    isNumberValue (vnum 0) = true
  ∧ isNumberValue (vnum 1) = true
  ∧ (makeBidoof
      [Token.desc isNumberValue, Token.ins (replace (vnum 1)),
       Token.desc isNumberValue, Token.ins (replace (vnum 1))]
      defaultOptions).map (fun g => g (vnum 0))
      = (makeBidoof
          [Token.desc isNumberValue, Token.ins (replace (vnum 1))]
          defaultOptions).map (fun f => f (vnum 0)) :=
  ⟨rfl, rfl,
   (c9_replace_idempotent isNumberValue (vnum 1) (vnum 0) rfl rfl).1⟩

/-- C4 (amended): the non-mutating variants of `merge`, `set`, `modify`,
`append`, `deleteProperty` and `at` are each exactly `withoutMutating`
applied to their mutating counterpart; `prepend` is the one exception — its
non-mutating variant is an independent implementation
(`items.concat(input)`), which agrees with
`withoutMutating(prepend.mutate(...))` on array inputs but is not derived
from it (and differs from it on non-array inputs, see the
counterexample). -/
theorem c4_noMutate_is_withoutMutating_except_prepend :
    (∀ other, mergeNoMutate other = withoutMutating (mergeMutate other))
  ∧ (∀ path value, setNoMutate path value = withoutMutating (setMutate path value))
  ∧ (∀ callback, modifyNoMutate callback = withoutMutating (modifyMutate callback))
  ∧ (∀ items, appendNoMutate items = withoutMutating (appendMutate items))
  ∧ (∀ name, deletePropertyNoMutate name
      = withoutMutating (deletePropertyMutate name))
  ∧ (∀ path i, atNoMutate path i = withoutMutating (atMutate path i))
  ∧ (∀ (items es : List Value),
      (prependNoMutate items).modifier (varr es)
        = (withoutMutating (prependMutate items)).modifier (varr es)) :=
  ⟨fun _ => rfl, fun _ _ => rfl, fun _ => rfl, fun _ => rfl, fun _ => rfl,
   fun _ _ => rfl, fun _ _ => rfl⟩

/-- C4 counterexample: `prepend`'s non-mutating variant is not
`withoutMutating` of its mutating variant — on the non-array input `5`,
`prepend(1)` returns `[1, 5]` (JS `concat` appends a non-array argument as
a single element) while `withoutMutating(prepend.mutate(1))` throws the
TypeError of calling `unshift` on a number. -/
theorem c4_counterexample_prepend_differs :
    (prependNoMutate [vnum 1]).modifier (vnum 5)
      = Except.ok (varr [vnum 1, vnum 5])
  ∧ (withoutMutating (prependMutate [vnum 1])).modifier (vnum 5)
      = Except.error JsError.typeMismatch :=
  ⟨rfl, rfl⟩

/-- C6 (amended): on a non-array target, `append` (both forms) and the
mutating `prepend` fail with the type-mismatch error, and the failure of an
instruction run by a matching program propagates synchronously to the
caller of the run function with no retry (last conjunct); the non-mutating
`prepend`, however, does not fail on a non-array target — it returns the
items with the target appended as a single element. -/
theorem c6_append_prepend_type_mismatch :
    ∀ (items : List Value) (v : Value), v.isArr = false →
      (appendMutate items).modifier v = Except.error JsError.typeMismatch
    ∧ (appendNoMutate items).modifier v = Except.error JsError.typeMismatch
    ∧ (prependMutate items).modifier v = Except.error JsError.typeMismatch
    ∧ (prependNoMutate items).modifier v = Except.ok (varr (items ++ [v]))
    ∧ (∀ (M : Value → Bool) (rest : List Program) (opts : Options),
        M v = true →
        runPrograms (⟨M, [appendMutate items]⟩ :: rest) opts v
          = Except.error JsError.typeMismatch) := by
  intro items v hv
  cases v <;>
    first
      | (refine ⟨rfl, rfl, rfl, rfl, fun M rest opts hM => ?_⟩
         simp [runPrograms, runProgramsGo, runProgram, runProgramGo,
           Program.matches, hM, appendMutate, makeInstruction])
      | (simp [Value.isArr] at hv)

/-- C6 witness: appending to the string `"s"` through a matching program
surfaces the type-mismatch error to the caller of the run function. -/
theorem c6_witness :
    Value.isArr (vstr "s") = false
  ∧ isStringValue (vstr "s") = true
  ∧ (appendMutate [vnum 1]).modifier (vstr "s")
      = Except.error JsError.typeMismatch
  ∧ runPrograms [⟨isStringValue, [appendMutate [vnum 1]]⟩] ⟨false⟩ (vstr "s")
      = Except.error JsError.typeMismatch :=
  ⟨rfl, rfl,
   (c6_append_prepend_type_mismatch [vnum 1] (vstr "s") rfl).1,
   (c6_append_prepend_type_mismatch [vnum 1] (vstr "s") rfl).2.2.2.2
     isStringValue [] ⟨false⟩ rfl⟩

/-- C6 counterexample: the claim says non-mutating `prepend` on a non-array
target fails with the type-mismatch error; in fact it succeeds, returning
the items with the target appended as a single element. -/
theorem c6_counterexample_prepend_no_error :
    (prependNoMutate [vnum 2]).modifier (vstr "x")
      = Except.ok (varr [vnum 2, vstr "x"]) :=
  rfl

/-- C7 (amended): `at` does read the child value at the path, apply the
inner instruction's modifier to it, and write back the result (first
conjunct); but `modify(x => x + 1)` leaves a numeric child unchanged,
because `modify` discards the callback's return value and the callback
cannot edit a number in place, so the spec's example only yields
`{a: {b: 6}}` with a return-value instruction such as
`transform(x => x + 1)` (second conjunct). -/
theorem c7_at_reads_applies_writes_back :
    (∀ (path : List String) (inner : Instruction) (v c : Value),
        inner.modifier (lodashGet v path) = Except.ok c →
        (atNoMutate path inner).modifier v = Except.ok (lodashSet v path c))
  ∧ (atNoMutate ["a", "b"] (transform addOneC)).modifier
      (vobj [("a", vobj [("b", vnum 5)])])
      = Except.ok (vobj [("a", vobj [("b", vnum 6)])]) := by
  constructor
  · intro path inner v c h
    simp [atNoMutate, atMutate, withoutMutating, immerProduce,
      makeInstruction, h]
  · rfl

/-- C7 witness: the general read-apply-write description of `at`,
instantiated at the spec's example input with the return-value instruction
`transform(x => x + 1)`. -/
theorem c7_witness :
    (transform addOneC).modifier
      (lodashGet (vobj [("a", vobj [("b", vnum 5)])]) ["a", "b"])
      = Except.ok (vnum 6)
  ∧ (atNoMutate ["a", "b"] (transform addOneC)).modifier
      (vobj [("a", vobj [("b", vnum 5)])])
      = Except.ok
          (lodashSet (vobj [("a", vobj [("b", vnum 5)])]) ["a", "b"] (vnum 6)) :=
  ⟨rfl,
   c7_at_reads_applies_writes_back.1 ["a", "b"] (transform addOneC)
     (vobj [("a", vobj [("b", vnum 5)])]) (vnum 6) rfl⟩

/-- C7 counterexample: `at("a.b", modify(x => x + 1))` applied to
`{a: {b: 5}}` yields `{a: {b: 5}}`, not `{a: {b: 6}}` — `modify` runs the
callback for its in-place effect and discards its return value, and
`x => x + 1` cannot mutate a number. -/
theorem c7_counterexample_modify_returns_input :
    (atNoMutate ["a", "b"] (modifyNoMutate addOneC)).modifier
      (vobj [("a", vobj [("b", vnum 5)])])
      = Except.ok (vobj [("a", vobj [("b", vnum 5)])])
  ∧ (atNoMutate ["a", "b"] (modifyNoMutate addOneC)).modifier
      (vobj [("a", vobj [("b", vnum 5)])])
      ≠ Except.ok (vobj [("a", vobj [("b", vnum 6)])]) := by
  refine ⟨rfl, fun hcontra => ?_⟩
  have h5 : (atNoMutate ["a", "b"] (modifyNoMutate addOneC)).modifier
      (vobj [("a", vobj [("b", vnum 5)])])
      = Except.ok (vobj [("a", vobj [("b", vnum 5)])]) := rfl
  have : (vobj [("a", vobj [("b", vnum 5)])] : Value)
      = vobj [("a", vobj [("b", vnum 6)])] :=
    Except.ok.inj (h5.symm.trans hcontra)
  simp at this

/-! ## Heap lemmas -/

/-- An allocated address reads to some value. -/
theorem readCells_isSome_of_mem :
    ∀ (cells : List (Addr × Value)) (b : Addr), b ∈ cells.map Prod.fst →
      ∃ v, readCells cells b = some v := by
  intro cells
  induction cells with
  | nil => intro b hb; simp at hb
  | cons c rest ih =>
    intro b hb
    obtain ⟨ca, cv⟩ := c
    by_cases hc : ca = b
    · exact ⟨cv, by simp [readCells, hc]⟩
    · have hb2 : b ∈ rest.map Prod.fst := by
        simp only [List.map_cons, List.mem_cons] at hb
        rcases hb with hb | hb
        · exact absurd hb.symm hc
        · exact hb
      obtain ⟨v, hv⟩ := ih b hb2
      exact ⟨v, by simp [readCells, hc, hv]⟩

/-- Reading an address that resolves in the left part of an appended cell
list ignores the appended part. -/
theorem readCells_append_of_some :
    ∀ (cells extra : List (Addr × Value)) (b : Addr) (v : Value),
      readCells cells b = some v → readCells (cells ++ extra) b = some v := by
  intro cells
  induction cells with
  | nil => intro extra b v h; exact (Option.noConfusion h)
  | cons c rest ih =>
    intro extra b v h
    obtain ⟨ca, cv⟩ := c
    by_cases hc : ca = b
    · simp [readCells, hc] at h
      simp [readCells, hc, h]
    · simp [readCells, hc] at h
      simpa [readCells, hc] using ih extra b v h
/-- Writing one address leaves every other address's cell unchanged. -/
theorem readCells_writeCells_ne :
    ∀ (cells : List (Addr × Value)) (a : Addr) (v : Value) (b : Addr),
      b ≠ a → readCells (writeCells cells a v) b = readCells cells b := by
  intro cells
  induction cells with
  | nil => intro a v b _; rfl
  | cons c rest ih =>
    intro a v b hba
    obtain ⟨ca, cv⟩ := c
    by_cases hc : ca = a
    · subst hc
      have hcb : ca ≠ b := fun h => hba h.symm
      simp [writeCells, readCells, hcb, ih ca v b hba]
    · by_cases hcb : ca = b
      · simp [writeCells, readCells, hc, hcb, hba]
      · simp [writeCells, readCells, hc, hcb, ih a v b hba]

/-- Every mutating instruction variant returns its input address: the
source's in-place modifiers all end in `return input`. -/
theorem inPlaceH_returns_input (f : Value → Except JsError Value) (a : Addr)
    (h : Heap) (r : Addr) (h2 : Heap) :
    inPlaceH f a h = Except.ok (r, h2) → r = a := by
  intro he
  unfold inPlaceH at he
  cases hf : f ((h.read a).getD vundef) with
  | ok v2 =>
    rw [hf] at he
    cases he
    rfl
  | error e =>
    rw [hf] at he
    cases he

/-- The produce-based wrapper around an in-place modifier is frame-safe: on
a well-formed heap it leaves every already-allocated cell unchanged (in
particular the original argument is deeply unchanged) and returns an
address that is not among the previously allocated ones. -/
theorem withoutMutatingH_inPlaceH_frame (f : Value → Except JsError Value)
    (a : Addr) (h : Heap) (hwf : h.WF) (r : Addr) (h2 : Heap) :
    withoutMutatingH (inPlaceH f) a h = Except.ok (r, h2) →
    (∀ b ∈ h.addrs, h2.read b = h.read b) ∧ r ∉ h.addrs := by
  intro he
  unfold withoutMutatingH Heap.alloc inPlaceH at he
  cases hf : f ((Heap.read ⟨h.cells ++ [(h.next, (h.read a).getD vundef)],
      h.next + 1⟩ h.next).getD vundef) with
  | ok v2 =>
    rw [hf] at he
    cases he
    constructor
    · intro b hb
      have hblt : b < h.next := hwf b hb
      have hbne : b ≠ h.next := Nat.ne_of_lt hblt
      obtain ⟨w, hw⟩ := readCells_isSome_of_mem h.cells b hb
      show readCells
          (writeCells (h.cells ++ [(h.next, (h.read a).getD vundef)])
            h.next v2) b = h.read b
      rw [readCells_writeCells_ne _ h.next v2 b hbne]
      rw [readCells_append_of_some h.cells _ b w hw]
      exact hw.symm
    · intro hr
      exact absurd (hwf h.next hr) (Nat.lt_irrefl h.next)
  | error e =>
    rw [hf] at he
    cases he

/-- C5: in the heap model, every mutating `set` / `merge` / `modify` /
`append` / `deleteProperty` returns the very address it was given (the
output is reference-identical to the input), while each corresponding
non-mutating variant leaves every previously allocated cell — in particular
the original argument object — deeply unchanged and returns an address that
is not any previously allocated one (so in particular, whether or not a
change occurred, the output is never reference-identical to the input; the
draft utility is modelled from the spec's section 6 contract, under which
`produce` returns a new value). -/
theorem c5_mutating_aliases_nonmutating_fresh :
    ∀ (h : Heap) (a : Addr), h.WF →
      ((∀ other r h2, mergeMutateH other a h = Except.ok (r, h2) → r = a)
       ∧ (∀ other r h2, mergeNoMutateH other a h = Except.ok (r, h2) →
            (∀ b ∈ h.addrs, h2.read b = h.read b) ∧ r ∉ h.addrs))
    ∧ ((∀ path value r h2,
          setMutateH path value a h = Except.ok (r, h2) → r = a)
       ∧ (∀ path value r h2,
          setNoMutateH path value a h = Except.ok (r, h2) →
            (∀ b ∈ h.addrs, h2.read b = h.read b) ∧ r ∉ h.addrs))
    ∧ ((∀ callback r h2,
          modifyMutateH callback a h = Except.ok (r, h2) → r = a)
       ∧ (∀ callback r h2,
          modifyNoMutateH callback a h = Except.ok (r, h2) →
            (∀ b ∈ h.addrs, h2.read b = h.read b) ∧ r ∉ h.addrs))
    ∧ ((∀ items r h2, appendMutateH items a h = Except.ok (r, h2) → r = a)
       ∧ (∀ items r h2, appendNoMutateH items a h = Except.ok (r, h2) →
            (∀ b ∈ h.addrs, h2.read b = h.read b) ∧ r ∉ h.addrs))
    ∧ ((∀ name r h2,
          deletePropertyMutateH name a h = Except.ok (r, h2) → r = a)
       ∧ (∀ name r h2,
          deletePropertyNoMutateH name a h = Except.ok (r, h2) →
            (∀ b ∈ h.addrs, h2.read b = h.read b) ∧ r ∉ h.addrs)) := by
  intro h a hwf
  exact
    ⟨⟨fun other r h2 he => inPlaceH_returns_input _ a h r h2 he,
      fun other r h2 he => withoutMutatingH_inPlaceH_frame _ a h hwf r h2 he⟩,
     ⟨fun path value r h2 he => inPlaceH_returns_input _ a h r h2 he,
      fun path value r h2 he =>
        withoutMutatingH_inPlaceH_frame _ a h hwf r h2 he⟩,
     ⟨fun callback r h2 he => inPlaceH_returns_input _ a h r h2 he,
      fun callback r h2 he =>
        withoutMutatingH_inPlaceH_frame _ a h hwf r h2 he⟩,
     ⟨fun items r h2 he => inPlaceH_returns_input _ a h r h2 he,
      fun items r h2 he =>
        withoutMutatingH_inPlaceH_frame _ a h hwf r h2 he⟩,
     ⟨fun name r h2 he => inPlaceH_returns_input _ a h r h2 he,
      fun name r h2 he =>
        withoutMutatingH_inPlaceH_frame _ a h hwf r h2 he⟩⟩

/-- C5 witness: on the one-cell heap holding `{k: 1}` at address 0, the
mutating `set("k", 2)` rewrites cell 0 and returns address 0, while the
non-mutating `set("k", 2)` returns the fresh address 1, leaving the
original cell's content unchanged. -/
theorem c5_witness :
    Heap.WF h0Ex
  ∧ setMutateH ["k"] (vnum 2) 0 h0Ex = Except.ok (0, h3Ex)
  ∧ setNoMutateH ["k"] (vnum 2) 0 h0Ex = Except.ok (1, h2Ex)
  ∧ Heap.read h2Ex 0 = Heap.read h0Ex 0
  ∧ (1 : Addr) ∉ Heap.addrs h0Ex :=
  ⟨by unfold Heap.WF; decide, rfl, rfl,
   ((c5_mutating_aliases_nonmutating_fresh h0Ex 0
        (by unfold Heap.WF; decide)).2.1.2 ["k"]
       (vnum 2) 1 h2Ex rfl).1 0 (by decide),
   ((c5_mutating_aliases_nonmutating_fresh h0Ex 0
        (by unfold Heap.WF; decide)).2.1.2 ["k"]
       (vnum 2) 1 h2Ex rfl).2⟩

end Bidoof
